import Mathlib

/-!
# provisiond: the legacy RPC bridge and its configuration store

A shallow embedding of `provisiond.go`.

* Go strings are Lean `String`s; the two `strings` functions the program uses
  (`strings.Contains`, `strings.Split`) are written out over the characters.
* A Go `map[string]V` is the list of its entries, in the order in which a
  `range` statement visits them.  Assignment `m[k] = v` is `GoMap.set`
  (overwrite in place, or add), indexing is `GoMap.get`.  Theorems hold for
  every list, hence for every order Go may pick; that keys are unique is a
  hypothesis where a statement needs it.
* Everything outside the package (the file system, the process launcher, the
  YANG compiler and its JSON codec) is a field of an explicit environment
  record, so that every theorem quantifies over all of their behaviours.
-/

namespace Provisiond

/-! ## Go strings -/

namespace strings

/-- Cut a character list at every occurrence of `sep`; there is always at
least one piece, and adjacent separators give empty pieces. -/
def splitChars (sep : Char) : List Char → List (List Char)
  | [] => [[]]
  | c :: cs =>
    if c = sep then [] :: splitChars sep cs
    else
      match splitChars sep cs with
      | [] => [[c]]
      | w :: ws => (c :: w) :: ws

/-- Go `strings.Split(s, sep)` for a separator of one character. -/
def Split (s : String) (sep : Char) : List String :=
  (splitChars sep s.data).map String.mk

/-- Go `strings.Contains(s, sub)` for a substring of one character. -/
def Contains (s : String) (sub : Char) : Bool :=
  decide (sub ∈ s.data)

/-- Go `strings.Join(elems, sep)`. -/
def Join (elems : List String) (sep : String) : String :=
  match elems with
  | [] => ""
  | [e] => e
  | e :: rest => e ++ sep ++ Join rest sep

end strings

/-! ## Go maps -/

namespace GoMap

/-- The assignment `m[k] = v`. -/
def set {V : Type} (m : List (String × V)) (k : String) (v : V) : List (String × V) :=
  match m with
  | [] => [(k, v)]
  | (k', v') :: rest => if k' = k then (k, v) :: rest else (k', v') :: set rest k v

/-- The lookup `v, ok := m[k]`. -/
def get {V : Type} (m : List (String × V)) (k : String) : Option V :=
  match m with
  | [] => none
  | (k', v') :: rest => if k' = k then some v' else get rest k

/-- The keys of a map. -/
def keys {V : Type} (m : List (String × V)) : List String :=
  m.map Prod.fst

end GoMap

/-! ## Script resolver (`resolvePath`) -/

/-- The `for _, dir := range pathDirs` loop of `resolvePath`: `stat abs` says
whether `os.Stat(abs)` returned a file description. -/
def resolvePath.loop (stat : String → Bool) (name : String) : List String → String
  | [] => name
  | dir :: dirs =>
    let abs := dir ++ "/" ++ name
    if stat abs then abs else resolvePath.loop stat name dirs

/-- Embedding of `resolvePath(name, path string) string`. -/
def resolvePath (stat : String → Bool) (name path : String) : String :=
  if strings.Contains name '/' then name
  else resolvePath.loop stat name (strings.Split path ':')

/-! ## Go errors -/

/-- The Go `error` values the package handles. -/
inductive GoError where
  /-- An error of `os`, `ioutil`, `os/exec` or a library, with its text. -/
  | os (text : String)
  /-- A `*exec.ExitError`: the process ran and did not succeed. -/
  | exit
  /-- The value made by `mgmterror.NewOperationFailedApplicationError()`
  after its `Message` field is assigned. -/
  | operationFailedApplication (Message : String)
  deriving DecidableEq, Repr

/-- Go `err.Error()`. -/
def GoError.Error : GoError → String
  | .os text => text
  | .exit => "exit status"
  | .operationFailedApplication m => m

/-- A Go call either returns or stops the program with a nil dereference. -/
inductive Outcome (α : Type) where
  | returned (a : α)
  | nilDereference
  deriving DecidableEq, Repr

/-! ## Configuration store (`Config`) -/

def provisiond_config_file : String := "/etc/vyatta/provisiond.conf"
def componentDir : String := "/lib/vci/components"
def yangDir : String := "/usr/share/configd/yang"

/-- The file operations `Config` uses, over a file-system state `σ`; each
returns the new state and the Go error (`none` is `nil`). -/
structure Disk (σ : Type) where
  WriteFile : σ → String → String → Nat → σ × Option GoError
  Chmod : σ → String → Nat → σ × Option GoError
  ReadFile : σ → String → String × Option GoError

structure Settings where
  deriving DecidableEq, Repr

structure State where
  settings : Settings
  deriving DecidableEq, Repr

/-- The `Config` object; `data` is the content of the `atomic.Value`. -/
structure Config where
  state : State
  data : String
  deriving DecidableEq, Repr

def NewState : State := { settings := {} }

def NewConfig (state : State) : Config := { state := state, data := "" }

def Config.Get (c : Config) : String := c.data

def Config.Check (_c : Config) (_cfg : String) : Option GoError := none

def Config.saveToFile {σ : Type} (d : Disk σ) (_c : Config) (fs : σ) (cfg : String) :
    σ × Option GoError :=
  match d.WriteFile fs provisiond_config_file cfg 0o600 with
  | (fs1, some err) => (fs1, some err)
  | (fs1, none) =>
    match d.Chmod fs1 provisiond_config_file 0o600 with
    | (fs2, some err) => (fs2, some err)
    | (fs2, none) => (fs2, none)

def Config.loadFromFile {σ : Type} (d : Disk σ) (c : Config) (fs : σ) :
    Config × Option GoError :=
  match d.ReadFile fs provisiond_config_file with
  | (_, some err) => (c, some err)
  | (b, none) => ({ c with data := b }, none)

/-- Embedding of `Config.Set`: the memory store comes first, then the save. -/
def Config.Set {σ : Type} (d : Disk σ) (c : Config) (fs : σ) (cfg : String) :
    Config × σ × Option GoError :=
  let c1 : Config := { c with data := cfg }
  match Config.saveToFile d c1 fs cfg with
  | (fs1, some err) => (c1, fs1, some err)
  | (fs1, none) => (c1, fs1, none)

/-! ## Compiled model -/

/-- What the program reads of a `schema.Rpc`. -/
structure Rpc (Node : Type) where
  Input : Node
  Script : String
  deriving DecidableEq, Repr

/-- What the program reads of a compiled module. -/
structure Module where
  Namespace : String
  deriving DecidableEq, Repr

/-- What the program reads of a `schema.ModelSet`: `Rpcs()` (namespace to
RPC name to RPC), `Modules()` (module name to module) and
`GetDefaultServiceModuleMap()` (a `map[string]struct{}`). -/
structure ModelSet (Node : Type) where
  Rpcs : List (String × List (String × Rpc Node))
  Modules : List (String × Module)
  GetDefaultServiceModuleMap : List (String × Unit)

/-- The YANG compiler and component loader, outside the package.  Each
returns a Go pair of value and error. -/
structure Compiler (Cfg Node : Type) where
  LoadComponentConfigDir : String → Cfg × Option GoError
  CompileDir : String → Cfg → Option (ModelSet Node) × Option GoError

/-- Embedding of `getModelSet`. -/
def getModelSet {Cfg Node : Type} (k : Compiler Cfg Node) :
    Option (ModelSet Node) × Option GoError :=
  match k.LoadComponentConfigDir componentDir with
  | (_, some _) => (none, none)
  | (compConfig, none) => k.CompileDir yangDir compConfig

/-- The loop `for name, mod := range ms.Modules()` of
`getModuleNameFromNamespace`: the first module visited whose namespace is `ns`
gives the name.  The order of the list matters only when two modules share a
namespace. -/
def getModuleNameFromNamespace.loop (ns : String) : List (String × Module) → String
  | [] => ""
  | (name, mod) :: rest =>
    if mod.Namespace = ns then name else getModuleNameFromNamespace.loop ns rest

/-- Embedding of `getModuleNameFromNamespace`. -/
def getModuleNameFromNamespace {Node : Type} (ms : ModelSet Node) (ns : String) : String :=
  getModuleNameFromNamespace.loop ns ms.Modules

/-! ## RPC table builder (`NewRPCMap`) -/

/-- The closure `genRpcFunc` returns, as the three values it captures; running
it is `Handler.call` below. -/
structure Handler (Node : Type) where
  modName : String
  rpcName : String
  rpc : Rpc Node
  deriving DecidableEq, Repr

def genRpcFunc {Node : Type} (modName rpcName : String) (rpc : Rpc Node) : Handler Node :=
  { modName := modName, rpcName := rpcName, rpc := rpc }

/-- The dispatch table: module name to RPC name to handler. -/
abbrev Table (Node : Type) := List (String × List (String × Handler Node))

instance Table.instDecidableEq {Node : Type} [DecidableEq Node] : DecidableEq (Table Node) :=
  fun a b => instDecidableEqList a b

/-- The inner loop `for name, rpc := range rpcs`. -/
def NewRPCMap.modRpcs {Node : Type} (modName : String) (rpcs : List (String × Rpc Node)) :
    List (String × Handler Node) :=
  rpcs.foldl (fun acc p => GoMap.set acc p.1 (genRpcFunc modName p.1 p.2)) []

/-- One round of the outer loop `for ns, rpcs := range allRpcs`. -/
def NewRPCMap.step {Node : Type} (ms : ModelSet Node) (ourRpcs : Table Node)
    (entry : String × List (String × Rpc Node)) : Table Node :=
  if (GoMap.get ms.GetDefaultServiceModuleMap entry.1).isSome then
    let modName := getModuleNameFromNamespace ms entry.1
    let modRpcs := NewRPCMap.modRpcs modName entry.2
    if modRpcs.length > 0 then GoMap.set ourRpcs modName modRpcs else ourRpcs
  else ourRpcs

/-- The guard under which a round of the outer loop stores a sub-map. -/
def NewRPCMap.stores {Node : Type} (ms : ModelSet Node)
    (entry : String × List (String × Rpc Node)) : Prop :=
  (GoMap.get ms.GetDefaultServiceModuleMap entry.1).isSome = true ∧
    (NewRPCMap.modRpcs (getModuleNameFromNamespace ms entry.1) entry.2).length > 0

instance NewRPCMap.stores.instDecidablePred {Node : Type} (ms : ModelSet Node) :
    DecidablePred (NewRPCMap.stores ms) :=
  fun _ => instDecidableAnd

/-- The part of `NewRPCMap` after the model is obtained. -/
def NewRPCMap.table {Node : Type} (ms : ModelSet Node) : Table Node :=
  ms.Rpcs.foldl (NewRPCMap.step ms) []

/-- Embedding of `NewRPCMap`.  `returned none` is the nil map; a nil model
with a nil error is dereferenced by `ms.GetDefaultServiceModuleMap()`. -/
def NewRPCMap {Cfg Node : Type} (k : Compiler Cfg Node) : Outcome (Option (Table Node)) :=
  match getModelSet k with
  | (_, some _) => .returned none
  | (none, none) => .nilDereference
  | (some ms, none) => .returned (some (NewRPCMap.table ms))

/-! ## Legacy RPC handler -/

/-- An `exec.Cmd` as the program fills it in. -/
structure Cmd where
  Path : String
  Args : List String
  Env : List String
  Stdin : String
  deriving DecidableEq, Repr

/-- What is observable after `c.Output()`: the captured output, the error
returned, the content of the `stdErr` buffer and `c.ProcessState.Success()`. -/
structure Finished where
  output : String
  err : Option GoError
  stdErr : String
  Success : Bool
  deriving DecidableEq, Repr

/-- A process that ran and ended with `status`, as `os/exec` reports it: the
error is nil for status zero and a `*exec.ExitError` otherwise. -/
def Finished.exited (status : Int) (out diag : String) : Finished :=
  { output := out, err := if status = 0 then none else some .exit,
    stdErr := diag, Success := decide (status = 0) }

/-- What the handler uses from outside the package. -/
structure Host (Node DataNode : Type) where
  UnmarshalJSON : Node → String → Except GoError DataNode
  AddDefaults : Node → DataNode → DataNode
  ToJSON : Node → DataNode → String
  Stat : String → Bool
  Environ : List String
  Output : Cmd → Finished

/-- The result of a handler call, with the processes it launched and the lines
it wrote to the warning log. -/
structure Reply where
  jsonOut : String
  err : Option GoError
  spawned : List Cmd
  logged : List String
  deriving DecidableEq, Repr

def scriptPaths : String :=
  "/bin:/usr/bin:/sbin:/usr/sbin:/opt/vyatta/bin:/opt/vyatta/sbin"

/-- The `exec.Cmd` built by `callLegacyRpcScript` for a non-empty script. -/
def callLegacyRpcScript.command {Node DataNode : Type} (h : Host Node DataNode)
    (rpc : Rpc Node) (inputTree : DataNode) : Cmd :=
  let script := rpc.Script
  let inputWithDefaults := h.AddDefaults rpc.Input inputTree
  let input := h.ToJSON rpc.Input inputWithDefaults
  let rpcargs := strings.Split script ' '
  let name := resolvePath h.Stat (rpcargs.headD "") scriptPaths
  { Path := name, Args := rpcargs.tail, Env := h.Environ ++ ["PATH=" ++ scriptPaths],
    Stdin := input }

/-- Embedding of `callLegacyRpcScript`. -/
def callLegacyRpcScript {Node DataNode : Type} (h : Host Node DataNode)
    (rpc : Rpc Node) (modName rpcName : String) (inputTree : DataNode) : Reply :=
  if rpc.Script ≠ "" then
    let c := callLegacyRpcScript.command h rpc inputTree
    let r := h.Output c
    if r.err ≠ none ∧ r.err ≠ some .exit then
      { jsonOut := "",
        err := some (.operationFailedApplication
          ("Failure to spawn RPC process: " ++ (r.err.map GoError.Error).getD "")),
        spawned := [c], logged := [] }
    else if !r.Success then
      let errStr := if r.stdErr = "" then r.output else r.stdErr
      { jsonOut := "",
        err := some (.operationFailedApplication ("RPC failure: " ++ errStr)),
        spawned := [c], logged := [] }
    else
      { jsonOut := r.output, err := r.err, spawned := [c],
        logged :=
          if r.stdErr ≠ "" then
            [modName ++ ":" ++ rpcName ++ " (" ++ rpc.Script ++ "): " ++ r.stdErr ++ "\n"]
          else [] }
  else
    { jsonOut := "",
      err := some (.operationFailedApplication
        ("Unexpected failure: missing RPC script (" ++ rpcName ++ ")")),
      spawned := [], logged := [] }

/-- Embedding of `handleLegacyRpc`. -/
def handleLegacyRpc {Node DataNode : Type} (h : Host Node DataNode)
    (rpc : Rpc Node) (modName rpcName args : String) : Reply :=
  match h.UnmarshalJSON rpc.Input args with
  | .error jerr =>
    { jsonOut := "",
      err := some (.operationFailedApplication
        ("Unexpected failure parsing input JSON: " ++ jerr.Error)),
      spawned := [], logged := [] }
  | .ok inputTree => callLegacyRpcScript h rpc modName rpcName inputTree

/-- Running the closure made by `genRpcFunc`. -/
def Handler.call {Node DataNode : Type} (h : Host Node DataNode) (f : Handler Node)
    (jsonIn : String) : Reply :=
  handleLegacyRpc h f.rpc f.modName f.rpcName jsonIn

/-! ## Whitespace tokens, as the specification words the argument list -/

/-- The whitespace characters. -/
def isSpace (c : Char) : Bool :=
  c = ' ' || c = '\t' || c = '\n' || c = '\r'

/-- Whether a character list starts inside a word. -/
def whitespaceTokens.inWord : List Char → Bool
  | [] => false
  | d :: _ => !isSpace d

/-- The tokens of a character list: maximal runs without whitespace. -/
def whitespaceTokens.chars : List Char → List (List Char)
  | [] => []
  | c :: cs =>
    if isSpace c then whitespaceTokens.chars cs
    else if whitespaceTokens.inWord cs then
      (c :: (whitespaceTokens.chars cs).headD []) :: (whitespaceTokens.chars cs).tail
    else [c] :: whitespaceTokens.chars cs

/-- Whitespace-split tokens of a string, in the words of the specification
(not the program's splitting, which is `strings.Split`). -/
def whitespaceTokens (s : String) : List String :=
  (whitespaceTokens.chars s.data).map String.mk

/-- A character list made of non-empty words without whitespace, separated by
exactly one space each. -/
def singleSpaced : List Char → Bool
  | [] => false
  | [c] => !isSpace c
  | c :: d :: rest =>
    !isSpace c && ((!isSpace d && singleSpaced (d :: rest)) || (d = ' ' && singleSpaced rest))

/-! ## Concrete inputs used to exercise the theorems -/

/-- A host whose codec accepts everything but `"bad"`, whose file system holds
only `/opt/vyatta/sbin/first-service`, and whose processes all end as `fin`. -/
def demoHost (fin : Finished) : Host Unit Unit :=
  { UnmarshalJSON := fun _ s => if s = "bad" then .error (.os "bad json") else .ok ()
    AddDefaults := fun _ t => t
    ToJSON := fun _ _ => "{}"
    Stat := fun p => decide (p = "/opt/vyatta/sbin/first-service")
    Environ := []
    Output := fun _ => fin }

/-- A disk on which every write fails and nothing else does. -/
def readOnlyDisk : Disk Unit :=
  { WriteFile := fun _ _ _ _ => ((), some (.os "read-only file system"))
    Chmod := fun _ _ _ => ((), none)
    ReadFile := fun _ _ => ("", none) }

/-- A disk on which writes succeed and `chmod` fails. -/
def noChmodDisk : Disk Unit :=
  { WriteFile := fun _ _ _ _ => ((), none)
    Chmod := fun _ _ _ => ((), some (.os "operation not permitted"))
    ReadFile := fun _ _ => ("", none) }

/-- A disk that keeps the last content written. -/
def plainDisk : Disk String :=
  { WriteFile := fun _ _ data _ => (data, none)
    Chmod := fun fs _ _ => (fs, none)
    ReadFile := fun fs _ => (fs, none) }

/-- A component loader that fails. -/
def noComponents : Compiler Unit Unit :=
  { LoadComponentConfigDir := fun _ => ((), some (.os "open /lib/vci/components: no such file"))
    CompileDir := fun _ _ => (some { Rpcs := [], Modules := [], GetDefaultServiceModuleMap := [] }, none) }

/-- A compiler that fails after the components loaded. -/
def noSchema : Compiler Unit Unit :=
  { LoadComponentConfigDir := fun _ => ((), none)
    CompileDir := fun _ _ => (none, some (.os "yang compilation failed")) }

/-- A compiler that yields the given model. -/
def compiled (ms : ModelSet Unit) : Compiler Unit Unit :=
  { LoadComponentConfigDir := fun _ => ((), none)
    CompileDir := fun _ _ => (some ms, none) }

/-- A model with two default-owned namespaces (one of them without RPCs) and
one namespace owned by another component. -/
def demoModel : ModelSet Unit :=
  { Rpcs := [("urn:a", [("reboot", ⟨(), "/opt/vyatta/bin/reboot now"⟩), ("ping", ⟨(), "ping"⟩)]),
             ("urn:empty", []),
             ("urn:other", [("secret", ⟨(), "secret"⟩)])]
    Modules := [("mod-other", ⟨"urn:other"⟩), ("mod-a", ⟨"urn:a"⟩), ("mod-empty", ⟨"urn:empty"⟩)]
    GetDefaultServiceModuleMap := [("urn:a", ()), ("urn:empty", ())] }



/-! ## Lemmas on `strings.Split` -/

theorem strings.splitChars_ne_nil (sep : Char) (l : List Char) :
    strings.splitChars sep l ≠ [] := by
  induction l with
  | nil => simp [strings.splitChars]
  | cons c cs ih =>
    unfold strings.splitChars
    split
    · simp
    · split <;> simp

theorem strings.sep_not_mem_splitChars (sep : Char) (l : List Char) :
    ∀ w ∈ strings.splitChars sep l, sep ∉ w := by
  induction l with
  | nil => simp [strings.splitChars]
  | cons c cs ih =>
    unfold strings.splitChars
    split
    · intro w hw
      rcases List.mem_cons.1 hw with rfl | hw
      · simp
      · exact ih w hw
    · rename_i hc
      split
      · intro w hw
        simp only [List.mem_singleton] at hw
        subst hw
        simpa using fun h => hc h.symm
      · rename_i w0 ws heq
        rw [heq] at ih
        intro w hw
        rcases List.mem_cons.1 hw with rfl | hw
        · have h0 := ih w0 (List.mem_cons_self _ _)
          simp only [List.mem_cons, not_or]
          exact ⟨fun h => hc h.symm, h0⟩
        · exact ih w (List.mem_cons_of_mem _ hw)

theorem strings.Join_cons_cons (e f : String) (rest : List String) (sep : String) :
    strings.Join (e :: f :: rest) sep = e ++ sep ++ strings.Join (f :: rest) sep := by
  simp [strings.Join]

theorem strings.Join_push_head (c : Char) (w : List Char) (rest : List String) (sep : String) :
    strings.Join (String.mk (c :: w) :: rest) sep
      = String.mk [c] ++ strings.Join (String.mk w :: rest) sep := by
  cases rest with
  | nil => simp only [strings.Join]; apply String.ext; simp
  | cons f rest =>
    rw [strings.Join_cons_cons, strings.Join_cons_cons]
    apply String.ext; simp

theorem strings.Join_splitChars (sep : Char) (l : List Char) :
    strings.Join ((strings.splitChars sep l).map String.mk) (String.mk [sep]) = String.mk l := by
  induction l with
  | nil => simp [strings.splitChars, strings.Join]
  | cons c cs ih =>
    unfold strings.splitChars
    split
    · rename_i hc
      have hne := strings.splitChars_ne_nil sep cs
      cases hsp : strings.splitChars sep cs with
      | nil => exact absurd hsp hne
      | cons w ws =>
        rw [hsp] at ih
        simp only [List.map_cons] at ih ⊢
        rw [strings.Join_cons_cons, ih, hc]
        apply String.ext; simp
    · split
      · rename_i heq
        exact absurd heq (strings.splitChars_ne_nil sep cs)
      · rename_i w ws heq
        rw [heq] at ih
        simp only [List.map_cons] at ih ⊢
        rw [strings.Join_push_head, ih]
        apply String.ext; simp

/-- Joining the pieces of `strings.Split` gives back the string. -/
theorem strings.Join_Split (s : String) (sep : Char) :
    strings.Join (strings.Split s sep) (String.mk [sep]) = s :=
  strings.Join_splitChars sep s.data

theorem strings.Split_ne_nil (s : String) (sep : Char) : strings.Split s sep ≠ [] := by
  simp [strings.Split, strings.splitChars_ne_nil]

theorem strings.not_Contains_of_mem_Split (s : String) (sep : Char) :
    ∀ w ∈ strings.Split s sep, strings.Contains w sep = false := by
  intro w hw
  simp only [strings.Split, List.mem_map] at hw
  obtain ⟨cs, hcs, rfl⟩ := hw
  simpa [strings.Contains] using strings.sep_not_mem_splitChars sep s.data cs hcs


/-! ## Script resolver -/

/-- C4: `resolvePath` returns `name` unchanged when it contains `/`; otherwise
it returns `dir + "/" + name` for the first directory of the colon-separated
search path for which that path exists, and `name` unchanged when there is
none. -/
theorem resolvePath_first_hit (stat : String → Bool) (name path : String) :
    (strings.Contains name '/' = true → resolvePath stat name path = name) ∧
    (strings.Contains name '/' = false →
      (∀ pre dir post, strings.Split path ':' = pre ++ dir :: post →
        (∀ d ∈ pre, stat (d ++ "/" ++ name) = false) →
        stat (dir ++ "/" ++ name) = true →
        resolvePath stat name path = dir ++ "/" ++ name) ∧
      ((∀ d ∈ strings.Split path ':', stat (d ++ "/" ++ name) = false) →
        resolvePath stat name path = name)) := by
  have hloop : ∀ pre dir post, (∀ d ∈ pre, stat (d ++ "/" ++ name) = false) →
      stat (dir ++ "/" ++ name) = true →
      resolvePath.loop stat name (pre ++ dir :: post) = dir ++ "/" ++ name := by
    intro pre dir post hpre hdir
    induction pre with
    | nil => simp [resolvePath.loop, hdir]
    | cons d pre ih =>
      have hd := hpre d (List.mem_cons_self _ _)
      simp only [List.cons_append, resolvePath.loop, hd]
      exact ih (fun e he => hpre e (List.mem_cons_of_mem _ he))
  have hnone : ∀ dirs : List String, (∀ d ∈ dirs, stat (d ++ "/" ++ name) = false) →
      resolvePath.loop stat name dirs = name := by
    intro dirs hall
    induction dirs with
    | nil => rfl
    | cons d dirs ih =>
      have hd := hall d (List.mem_cons_self _ _)
      simp only [resolvePath.loop, hd]
      exact ih (fun e he => hall e (List.mem_cons_of_mem _ he))
  refine ⟨fun h => by simp [resolvePath, h], fun h => ⟨?_, ?_⟩⟩
  · intro pre dir post hsplit hpre hdir
    simp only [resolvePath, h, hsplit]
    exact hloop pre dir post hpre hdir
  · intro hall
    simp only [resolvePath, h]
    exact hnone _ hall

/-- C4 at the search path `/a:/b` where only `/b/first-service` exists. -/
theorem resolvePath_first_hit_witness :
    resolvePath (fun p => decide (p = "/b/first-service")) "first-service" "/a:/b"
      = "/b" ++ "/" ++ "first-service" :=
  ((resolvePath_first_hit (fun p => decide (p = "/b/first-service")) "first-service"
      "/a:/b").2 (by decide)).1 ["/a"] "/b" [] (by decide) (by decide) (by decide)

/-! ## Configuration store -/

/-- C3: after `Set(v)`, `Get` returns `v` whatever the disk did; `Set` returns
the error of the write, else the error of the `chmod`, else no error. -/
theorem Config_Get_after_Set {σ : Type} (d : Disk σ) (c : Config) (fs : σ) (v : String) :
    (Config.Set d c fs v).1.Get = v ∧
    (∀ e, (d.WriteFile fs provisiond_config_file v 0o600).2 = some e →
      (Config.Set d c fs v).2.2 = some e) ∧
    (∀ e, (d.WriteFile fs provisiond_config_file v 0o600).2 = none →
      (d.Chmod (d.WriteFile fs provisiond_config_file v 0o600).1
        provisiond_config_file 0o600).2 = some e →
      (Config.Set d c fs v).2.2 = some e) ∧
    ((d.WriteFile fs provisiond_config_file v 0o600).2 = none →
      (d.Chmod (d.WriteFile fs provisiond_config_file v 0o600).1
        provisiond_config_file 0o600).2 = none →
      (Config.Set d c fs v).2.2 = none) := by
  unfold Config.Set Config.saveToFile Config.Get
  rcases hw : d.WriteFile fs provisiond_config_file v 0o600 with ⟨fs1, _ | ew⟩
  · rcases hc : d.Chmod fs1 provisiond_config_file 0o600 with ⟨fs2, _ | ec⟩
    · simp [hc]
    · simp [hc]
  · simp

/-- C3 on three disks: when the write fails, and when the `chmod` fails,
`Set("beta")` returns that error and `Get` gives `"beta"`; when both succeed
`Set("alpha")` returns no error and `Get` gives `"alpha"`. -/
theorem Config_Get_after_Set_witness :
    ((Config.Set readOnlyDisk (NewConfig NewState) () "beta").1.Get = "beta" ∧
      (Config.Set readOnlyDisk (NewConfig NewState) () "beta").2.2
        = some (.os "read-only file system")) ∧
    ((Config.Set noChmodDisk (NewConfig NewState) () "beta").1.Get = "beta" ∧
      (Config.Set noChmodDisk (NewConfig NewState) () "beta").2.2
        = some (.os "operation not permitted")) ∧
    ((Config.Set plainDisk (NewConfig NewState) "" "alpha").1.Get = "alpha" ∧
      (Config.Set plainDisk (NewConfig NewState) "" "alpha").2.2 = none) :=
  ⟨⟨(Config_Get_after_Set readOnlyDisk (NewConfig NewState) () "beta").1,
    (Config_Get_after_Set readOnlyDisk (NewConfig NewState) () "beta").2.1
      (.os "read-only file system") rfl⟩,
   ⟨(Config_Get_after_Set noChmodDisk (NewConfig NewState) () "beta").1,
    (Config_Get_after_Set noChmodDisk (NewConfig NewState) () "beta").2.2.1
      (.os "operation not permitted") rfl rfl⟩,
   ⟨(Config_Get_after_Set plainDisk (NewConfig NewState) "" "alpha").1,
    (Config_Get_after_Set plainDisk (NewConfig NewState) "" "alpha").2.2.2 rfl rfl⟩⟩

/-! ## Legacy RPC handler -/

/-- C2 as stated fails: with exit status 1 and diagnostic text `boom` the
message is `RPC failure: boom`, not `boom`; with nothing written at all it is
`RPC failure: `, not empty. -/
theorem callLegacyRpcScript_message_not_bare :
    (callLegacyRpcScript (demoHost (Finished.exited 1 "out" "boom"))
        ⟨(), "first-service --now"⟩ "m" "r" ()).err
      = some (.operationFailedApplication "RPC failure: boom") ∧
    (callLegacyRpcScript (demoHost (Finished.exited 1 "out" "boom"))
        ⟨(), "first-service --now"⟩ "m" "r" ()).err
      ≠ some (.operationFailedApplication "boom") ∧
    (callLegacyRpcScript (demoHost (Finished.exited 1 "" ""))
        ⟨(), "first-service --now"⟩ "m" "r" ()).err
      ≠ some (.operationFailedApplication "") := by
  decide

/-- C2 amended: for a non-empty script whose process ends with a non-zero
status, the call fails with the message `RPC failure: ` followed by the
diagnostic text when that is non-empty and by the output otherwise, and the
returned output is empty. -/
theorem callLegacyRpcScript_nonzero_exit {Node DataNode : Type} (h : Host Node DataNode)
    (rpc : Rpc Node) (modName rpcName : String) (inputTree : DataNode)
    (status : Int) (out diag : String)
    (hscript : rpc.Script ≠ "") (hstatus : status ≠ 0)
    (hrun : h.Output (callLegacyRpcScript.command h rpc inputTree)
      = Finished.exited status out diag) :
    (callLegacyRpcScript h rpc modName rpcName inputTree).err
      = some (.operationFailedApplication
          ("RPC failure: " ++ if diag ≠ "" then diag else out)) ∧
    (callLegacyRpcScript h rpc modName rpcName inputTree).jsonOut = "" := by
  by_cases hd : diag = "" <;>
    simp [callLegacyRpcScript, hscript, hrun, Finished.exited, hstatus, hd]

/-- C2 amended, at exit status 1 with diagnostic text `boom`. -/
theorem callLegacyRpcScript_nonzero_exit_witness :
    (callLegacyRpcScript (demoHost (Finished.exited 1 "out" "boom"))
        ⟨(), "first-service --now"⟩ "m" "r" ()).err
      = some (.operationFailedApplication
          ("RPC failure: " ++ if "boom" ≠ "" then "boom" else "out")) ∧
    (callLegacyRpcScript (demoHost (Finished.exited 1 "out" "boom"))
        ⟨(), "first-service --now"⟩ "m" "r" ()).jsonOut = "" :=
  callLegacyRpcScript_nonzero_exit (demoHost (Finished.exited 1 "out" "boom"))
    ⟨(), "first-service --now"⟩ "m" "r" () 1 "out" "boom" (by decide) (by decide) rfl

/-- C5: with an empty script reference and an input that decodes, the handler
fails with the `missing RPC script` error, returns an empty output and launches
no process; so does `callLegacyRpcScript` on any input tree. -/
theorem handleLegacyRpc_missing_script {Node DataNode : Type} (h : Host Node DataNode)
    (rpc : Rpc Node) (modName rpcName args : String) (inputTree : DataNode)
    (hscript : rpc.Script = "")
    (hdecode : h.UnmarshalJSON rpc.Input args = .ok inputTree) :
    handleLegacyRpc h rpc modName rpcName args
      = { jsonOut := "",
          err := some (.operationFailedApplication
            ("Unexpected failure: missing RPC script (" ++ rpcName ++ ")")),
          spawned := [], logged := [] } ∧
    callLegacyRpcScript h rpc modName rpcName inputTree
      = handleLegacyRpc h rpc modName rpcName args := by
  simp [handleLegacyRpc, hdecode, callLegacyRpcScript, hscript]

/-- C5 for an RPC named `r` without script. -/
theorem handleLegacyRpc_missing_script_witness :
    (handleLegacyRpc (demoHost (Finished.exited 0 "ok" "")) ⟨(), ""⟩ "m" "r" "{}").err
      = some (.operationFailedApplication "Unexpected failure: missing RPC script (r)") ∧
    (handleLegacyRpc (demoHost (Finished.exited 0 "ok" "")) ⟨(), ""⟩ "m" "r" "{}").spawned
      = [] :=
  ⟨by rw [(handleLegacyRpc_missing_script (demoHost (Finished.exited 0 "ok" ""))
      ⟨(), ""⟩ "m" "r" "{}" () rfl rfl).1]; decide,
   by rw [(handleLegacyRpc_missing_script (demoHost (Finished.exited 0 "ok" ""))
      ⟨(), ""⟩ "m" "r" "{}" () rfl rfl).1]⟩

/-- C6: for a non-empty script whose process ends with status zero, the call
returns the output unchanged and no error, whatever the diagnostic text; the
diagnostic text only decides whether a log line is written. -/
theorem callLegacyRpcScript_zero_exit {Node DataNode : Type} (h : Host Node DataNode)
    (rpc : Rpc Node) (modName rpcName : String) (inputTree : DataNode)
    (out diag : String)
    (hscript : rpc.Script ≠ "")
    (hrun : h.Output (callLegacyRpcScript.command h rpc inputTree)
      = Finished.exited 0 out diag) :
    (callLegacyRpcScript h rpc modName rpcName inputTree).jsonOut = out ∧
    (callLegacyRpcScript h rpc modName rpcName inputTree).err = none ∧
    ((callLegacyRpcScript h rpc modName rpcName inputTree).logged = [] ↔ diag = "") := by
  by_cases hd : diag = "" <;>
    simp [callLegacyRpcScript, hscript, hrun, Finished.exited, hd]

/-- C6 with output `ok` and a non-empty diagnostic text. -/
theorem callLegacyRpcScript_zero_exit_witness :
    (callLegacyRpcScript (demoHost (Finished.exited 0 "ok" "warning: slow"))
        ⟨(), "first-service --now"⟩ "m" "r" ()).jsonOut = "ok" ∧
    (callLegacyRpcScript (demoHost (Finished.exited 0 "ok" "warning: slow"))
        ⟨(), "first-service --now"⟩ "m" "r" ()).err = none :=
  ⟨(callLegacyRpcScript_zero_exit (demoHost (Finished.exited 0 "ok" "warning: slow"))
      ⟨(), "first-service --now"⟩ "m" "r" () "ok" "warning: slow" (by decide) rfl).1,
   (callLegacyRpcScript_zero_exit (demoHost (Finished.exited 0 "ok" "warning: slow"))
      ⟨(), "first-service --now"⟩ "m" "r" () "ok" "warning: slow" (by decide) rfl).2.1⟩

/-- On an invocation string whose words are separated by exactly one space
each, with no other whitespace, `strings.Split` gives the whitespace tokens. -/
theorem strings.splitChars_eq_whitespaceTokens (n : Nat) :
    ∀ l : List Char, l.length ≤ n → singleSpaced l = true →
      strings.splitChars ' ' l = whitespaceTokens.chars l := by
  induction n with
  | zero =>
    intro l hlen hl
    cases l with
    | nil => simp [singleSpaced] at hl
    | cons c cs => simp at hlen
  | succ n ih =>
    intro l hlen hl
    match l, hlen, hl with
    | [], _, hl => simp [singleSpaced] at hl
    | [c], _, hl =>
      simp only [singleSpaced, Bool.not_eq_true'] at hl
      have hc : c ≠ ' ' := by
        intro h
        subst h
        simp [isSpace] at hl
      simp [strings.splitChars, whitespaceTokens.chars, whitespaceTokens.inWord, hl, hc]
    | c :: d :: rest, hlen, hl =>
      simp only [singleSpaced, Bool.and_eq_true, Bool.or_eq_true, Bool.not_eq_true',
        decide_eq_true_eq] at hl
      obtain ⟨hcs, hrest⟩ := hl
      have hc : c ≠ ' ' := by
        intro h
        subst h
        simp [isSpace] at hcs
      rcases hrest with ⟨hds, hgood⟩ | ⟨hd, hgood⟩
      · have hrec := ih (d :: rest) (by simp at hlen ⊢; omega) hgood
        have hne := strings.splitChars_ne_nil ' ' (d :: rest)
        cases hsp : strings.splitChars ' ' (d :: rest) with
        | nil => exact absurd hsp hne
        | cons w ws =>
          rw [hsp] at hrec
          rw [strings.splitChars, if_neg hc, hsp, whitespaceTokens.chars]
          simp [hcs, ← hrec, hds, whitespaceTokens.inWord]
      · subst hd
        have hrec := ih rest (by simp at hlen ⊢; omega) hgood
        have hws2 : whitespaceTokens.chars (' ' :: rest) = strings.splitChars ' ' rest := by
          rw [whitespaceTokens.chars, hrec]
          simp [isSpace]
        have hsp2 : strings.splitChars ' ' (' ' :: rest) = [] :: strings.splitChars ' ' rest := by
          simp [strings.splitChars]
        have hblank : isSpace ' ' = true := by decide
        rw [strings.splitChars, if_neg hc, hsp2, whitespaceTokens.chars, hws2]
        simp [hcs, whitespaceTokens.inWord, hblank]

/-- The program's splitting agrees with whitespace tokens on single-spaced
invocation strings. -/
theorem strings.Split_eq_whitespaceTokens (s : String) (hs : singleSpaced s.data = true) :
    strings.Split s ' ' = whitespaceTokens s := by
  simp only [strings.Split, whitespaceTokens]
  rw [strings.splitChars_eq_whitespaceTokens s.data.length s.data (Nat.le_refl _) hs]

/-- C9 as stated fails: for the invocation string `a  b` (two spaces) the
process receives the arguments `""` and `b`, while the whitespace-split tokens
are `a` and `b`; for `a\tb` the program name contains a tab. -/
theorem command_args_not_whitespace_tokens :
    (callLegacyRpcScript.command (demoHost (Finished.exited 0 "" "")) ⟨(), "a  b"⟩ ()).Args
      = ["", "b"] ∧
    whitespaceTokens "a  b" = ["a", "b"] ∧
    strings.Split "a  b" ' ' ≠ whitespaceTokens "a  b" ∧
    strings.Split "a\tb" ' ' = ["a\tb"] ∧
    whitespaceTokens "a\tb" = ["a", "b"] := by
  decide

/-- C9 amended: for a non-empty invocation string, the program name handed to
`resolvePath` followed by the arguments of the launched process is
`strings.Split(script, " ")`: joined with single spaces the pieces give back
the invocation string, and no piece contains a space. -/
theorem command_args_split_on_space {Node DataNode : Type} (h : Host Node DataNode)
    (rpc : Rpc Node) (modName rpcName : String) (inputTree : DataNode)
    (hscript : rpc.Script ≠ "") :
    ∃ prog : String,
      (callLegacyRpcScript h rpc modName rpcName inputTree).spawned
        = [callLegacyRpcScript.command h rpc inputTree] ∧
      (callLegacyRpcScript.command h rpc inputTree).Path
        = resolvePath h.Stat prog scriptPaths ∧
      prog :: (callLegacyRpcScript.command h rpc inputTree).Args
        = strings.Split rpc.Script ' ' ∧
      strings.Join (prog :: (callLegacyRpcScript.command h rpc inputTree).Args) " "
        = rpc.Script ∧
      ∀ a ∈ prog :: (callLegacyRpcScript.command h rpc inputTree).Args,
        strings.Contains a ' ' = false := by
  have hne := strings.Split_ne_nil rpc.Script ' '
  cases hsp : strings.Split rpc.Script ' ' with
  | nil => exact absurd hsp hne
  | cons prog args =>
    refine ⟨prog, ?_, ?_, ?_, ?_, ?_⟩
    · simp only [callLegacyRpcScript, if_pos hscript]
      split_ifs <;> rfl
    · simp [callLegacyRpcScript.command, hsp]
    · simp [callLegacyRpcScript.command, hsp]
    · have hj := strings.Join_Split rpc.Script ' '
      rw [hsp] at hj
      simpa [callLegacyRpcScript.command, hsp] using hj
    · have hc := strings.not_Contains_of_mem_Split rpc.Script ' '
      rw [hsp] at hc
      simpa [callLegacyRpcScript.command, hsp] using hc

/-- C9 amended, for the invocation string `first-service --now`. -/
theorem command_args_split_on_space_witness :
    ∃ prog : String,
      (callLegacyRpcScript (demoHost (Finished.exited 0 "ok" ""))
          ⟨(), "first-service --now"⟩ "m" "r" ()).spawned
        = [callLegacyRpcScript.command (demoHost (Finished.exited 0 "ok" ""))
            ⟨(), "first-service --now"⟩ ()] ∧
      prog :: (callLegacyRpcScript.command (demoHost (Finished.exited 0 "ok" ""))
          ⟨(), "first-service --now"⟩ ()).Args
        = strings.Split "first-service --now" ' ' := by
  obtain ⟨prog, h1, _, h3, _, _⟩ :=
    command_args_split_on_space (demoHost (Finished.exited 0 "ok" ""))
      ⟨(), "first-service --now"⟩ "m" "r" () (by decide)
  exact ⟨prog, h1, h3⟩

/-! ## Obtaining the model -/

/-- A failed component load makes `NewRPCMap` dereference the nil model. -/
theorem NewRPCMap.of_load_failure {Cfg Node : Type} (k : Compiler Cfg Node)
    (cfg : Cfg) (e : GoError) (hload : k.LoadComponentConfigDir componentDir = (cfg, some e)) :
    getModelSet k = (none, none) ∧ NewRPCMap k = .nilDereference := by
  simp [NewRPCMap, getModelSet, hload]

/-- A failed schema compilation makes `NewRPCMap` return the nil map. -/
theorem NewRPCMap.of_compile_failure {Cfg Node : Type} (k : Compiler Cfg Node)
    (cfg : Cfg) (ms : Option (ModelSet Node)) (e : GoError)
    (hload : k.LoadComponentConfigDir componentDir = (cfg, none))
    (hcompile : k.CompileDir yangDir cfg = (ms, some e)) :
    NewRPCMap k = .returned none := by
  simp [NewRPCMap, getModelSet, hload, hcompile]

/-- C8: when loading the component configuration directory fails,
`getModelSet` returns a nil model with a nil error, and `NewRPCMap` goes on to
call a method of the nil model instead of returning the nil map. -/
theorem NewRPCMap_load_failure_dereferences_nil :
    (noComponents.LoadComponentConfigDir componentDir).2
      = some (.os "open /lib/vci/components: no such file") ∧
    getModelSet noComponents = (none, none) ∧
    NewRPCMap noComponents = .nilDereference ∧
    NewRPCMap noComponents ≠ .returned none ∧
    NewRPCMap noSchema = .returned none :=
  ⟨rfl, rfl, by decide, by decide, by decide⟩


/-! ## Lemmas on Go maps and on loops that fill them -/

theorem GoMap.mem_set {V : Type} (m : List (String × V)) (k : String) (v : V)
    (p : String × V) (hp : p ∈ GoMap.set m k v) : p = (k, v) ∨ p ∈ m := by
  induction m with
  | nil => simpa [GoMap.set] using hp
  | cons q rest ih =>
    obtain ⟨k', v'⟩ := q
    unfold GoMap.set at hp
    split at hp
    · rcases List.mem_cons.1 hp with h | h
      · exact Or.inl h
      · exact Or.inr (List.mem_cons_of_mem _ h)
    · rcases List.mem_cons.1 hp with h | h
      · exact Or.inr (h ▸ List.mem_cons_self _ _)
      · rcases ih h with h | h
        · exact Or.inl h
        · exact Or.inr (List.mem_cons_of_mem _ h)

theorem GoMap.set_ne_nil {V : Type} (m : List (String × V)) (k : String) (v : V) :
    GoMap.set m k v ≠ [] := by
  cases m with
  | nil => simp [GoMap.set]
  | cons q rest =>
    obtain ⟨k', v'⟩ := q
    unfold GoMap.set
    split <;> simp

theorem GoMap.get_set_self {V : Type} (m : List (String × V)) (k : String) (v : V) :
    GoMap.get (GoMap.set m k v) k = some v := by
  induction m with
  | nil => simp [GoMap.set, GoMap.get]
  | cons q rest ih =>
    obtain ⟨k', v'⟩ := q
    unfold GoMap.set
    split
    · simp [GoMap.get]
    · rename_i hk
      simp [GoMap.get, hk, ih]

theorem GoMap.get_set_of_ne {V : Type} (m : List (String × V)) (k k' : String) (v : V)
    (hne : k' ≠ k) : GoMap.get (GoMap.set m k v) k' = GoMap.get m k' := by
  induction m with
  | nil => simp [GoMap.set, GoMap.get, Ne.symm hne]
  | cons q rest ih =>
    obtain ⟨k0, v0⟩ := q
    unfold GoMap.set
    split
    · rename_i hk
      subst hk
      simp [GoMap.get, Ne.symm hne]
    · by_cases h0 : k0 = k' <;> simp [GoMap.get, h0, ih]

theorem GoMap.mem_of_get {V : Type} (m : List (String × V)) (k : String) (v : V)
    (hget : GoMap.get m k = some v) : (k, v) ∈ m := by
  induction m with
  | nil => simp [GoMap.get] at hget
  | cons q rest ih =>
    obtain ⟨k0, v0⟩ := q
    unfold GoMap.get at hget
    split at hget
    · rename_i hk
      simp only [Option.some.injEq] at hget
      subst hk; subst hget
      exact List.mem_cons_self _ _
    · exact List.mem_cons_of_mem _ (ih hget)

theorem GoMap.eq_of_mem_of_nodup {V : Type} (m : List (String × V))
    (hnd : (GoMap.keys m).Nodup) (k : String) (v w : V)
    (hv : (k, v) ∈ m) (hw : (k, w) ∈ m) : v = w := by
  induction m with
  | nil => simp at hv
  | cons q rest ih =>
    simp only [GoMap.keys, List.map_cons, List.nodup_cons, List.mem_map, not_exists,
      not_and] at hnd
    rcases List.mem_cons.1 hv with hv | hv <;> rcases List.mem_cons.1 hw with hw | hw
    · rw [← hv] at hw
      exact (Prod.mk.inj hw).2.symm
    · exact absurd (by rw [← hv]) (hnd.1 (k, w) hw)
    · exact absurd (by rw [← hw]) (hnd.1 (k, v) hv)
    · exact ih hnd.2 hv hw

/-- Every entry of a map filled by a guarded loop was in the map before or was
stored by some round of the loop. -/
theorem GoMap.mem_foldl_set {A V : Type} (c : A → Prop) [DecidablePred c]
    (key : A → String) (val : A → V) (l : List A) (acc : List (String × V))
    (x : String × V)
    (hx : x ∈ l.foldl (fun m b => if c b then GoMap.set m (key b) (val b) else m) acc) :
    x ∈ acc ∨ ∃ b ∈ l, c b ∧ x = (key b, val b) := by
  induction l generalizing acc with
  | nil => exact Or.inl hx
  | cons b l ih =>
    simp only [List.foldl_cons] at hx
    rcases ih _ hx with h | ⟨b', hb', hc, hx'⟩
    · split at h
      · rename_i hcb
        rcases GoMap.mem_set _ _ _ _ h with h | h
        · exact Or.inr ⟨b, List.mem_cons_self _ _, hcb, h⟩
        · exact Or.inl h
      · exact Or.inl h
    · exact Or.inr ⟨b', List.mem_cons_of_mem _ hb', hc, hx'⟩

/-- A round of a guarded loop that stores under `key a` determines the final
entry at `key a`, when every round storing under that key stores the same. -/
theorem GoMap.get_foldl_set {A V : Type} (c : A → Prop) [DecidablePred c]
    (key : A → String) (val : A → V) (l : List A) (acc : List (String × V))
    (a : A) (ha : a ∈ l) (hc : c a)
    (hsame : ∀ b ∈ l, c b → key b = key a → val b = val a) :
    GoMap.get (l.foldl (fun m b => if c b then GoMap.set m (key b) (val b) else m) acc)
      (key a) = some (val a) := by
  induction l using List.reverseRecOn generalizing acc with
  | nil => simp at ha
  | append_singleton l b ih =>
    simp only [List.foldl_append, List.foldl_cons, List.foldl_nil]
    by_cases hb : c b ∧ key b = key a
    · rw [if_pos hb.1, hb.2, ← hsame b (by simp) hb.1 hb.2]
      exact GoMap.get_set_self _ _ _
    · have hal : a ∈ l := by
        rcases List.mem_append.1 ha with h | h
        · exact h
        · simp only [List.mem_singleton] at h
          subst h
          exact absurd ⟨hc, rfl⟩ hb
      have hrec := ih acc hal (fun b' hb' => hsame b' (List.mem_append_left _ hb'))
      by_cases hcb : c b
      · rw [if_pos hcb, GoMap.get_set_of_ne _ _ _ _ (fun h => hb ⟨hcb, h.symm⟩)]
        exact hrec
      · rw [if_neg hcb]
        exact hrec

/-! ## Lemmas on the table builder -/

theorem getModuleNameFromNamespace.loop_spec (ns : String) (mods : List (String × Module))
    (hex : ∃ p ∈ mods, p.2.Namespace = ns) :
    ∃ mod, (getModuleNameFromNamespace.loop ns mods, mod) ∈ mods ∧ mod.Namespace = ns := by
  induction mods with
  | nil => simp at hex
  | cons q rest ih =>
    obtain ⟨name, mod⟩ := q
    unfold getModuleNameFromNamespace.loop
    split
    · rename_i h
      exact ⟨mod, List.mem_cons_self _ _, h⟩
    · rename_i h
      obtain ⟨p, hp, hpns⟩ := hex
      rcases List.mem_cons.1 hp with hp | hp
      · subst hp
        exact absurd hpns h
      · obtain ⟨m, hm, hmns⟩ := ih ⟨p, hp, hpns⟩
        exact ⟨m, List.mem_cons_of_mem _ hm, hmns⟩

theorem NewRPCMap.modRpcs_eq {Node : Type} (modName : String)
    (rpcs : List (String × Rpc Node)) :
    NewRPCMap.modRpcs modName rpcs
      = rpcs.foldl (fun m b => if (fun _ => True) b then
          GoMap.set m (Prod.fst b) ((fun p => genRpcFunc modName p.1 p.2) b) else m) [] := by
  simp [NewRPCMap.modRpcs]

theorem NewRPCMap.modRpcs_ne_nil {Node : Type} (modName : String)
    (rpcs : List (String × Rpc Node)) (hne : rpcs ≠ []) :
    NewRPCMap.modRpcs modName rpcs ≠ [] := by
  induction rpcs using List.reverseRecOn with
  | nil => exact absurd rfl hne
  | append_singleton l b _ =>
    simp only [NewRPCMap.modRpcs, List.foldl_append, List.foldl_cons, List.foldl_nil]
    exact GoMap.set_ne_nil _ _ _

theorem NewRPCMap.mem_modRpcs {Node : Type} (modName : String)
    (rpcs : List (String × Rpc Node)) (x : String × Handler Node)
    (hx : x ∈ NewRPCMap.modRpcs modName rpcs) :
    ∃ d, (x.1, d) ∈ rpcs ∧ x.2 = genRpcFunc modName x.1 d := by
  rw [NewRPCMap.modRpcs_eq] at hx
  rcases GoMap.mem_foldl_set _ _ _ _ _ _ hx with h | ⟨b, hb, _, hxb⟩
  · simp at h
  · subst hxb
    exact ⟨b.2, hb, rfl⟩

theorem NewRPCMap.table_eq {Node : Type} (ms : ModelSet Node) :
    NewRPCMap.table ms
      = ms.Rpcs.foldl (fun m b => if NewRPCMap.stores ms b then
          GoMap.set m (getModuleNameFromNamespace ms b.1)
            (NewRPCMap.modRpcs (getModuleNameFromNamespace ms b.1) b.2) else m) [] := by
  unfold NewRPCMap.table
  congr 1
  funext m b
  unfold NewRPCMap.step NewRPCMap.stores
  by_cases h1 : (GoMap.get ms.GetDefaultServiceModuleMap b.1).isSome = true
  · by_cases h2 : (NewRPCMap.modRpcs (getModuleNameFromNamespace ms b.1) b.2).length > 0
    · simp [h1, h2]
    · simp [h1, h2]
  · simp [h1]

theorem NewRPCMap.of_model {Cfg Node : Type} (k : Compiler Cfg Node) (ms : ModelSet Node)
    (hms : getModelSet k = (some ms, none)) :
    NewRPCMap k = .returned (some (NewRPCMap.table ms)) := by
  simp [NewRPCMap, hms]


/-! ## RPC table builder -/

/-- C1: every entry `(module, rpc)` of the table returned by `NewRPCMap` comes
from a namespace `ns` that is a key of the full RPC map and of the set of
default-owned namespaces, with `rpc` a key of the RPC map at `ns`, `module`
the name `getModuleNameFromNamespace` resolves for `ns`, and the handler bound
to what `ns` declares for `rpc`; so nothing of a namespace outside the
default-owned set is in the table. -/
theorem NewRPCMap_entries_default_owned {Cfg Node : Type} (k : Compiler Cfg Node)
    (ms : ModelSet Node) (hms : getModelSet k = (some ms, none)) :
    ∃ t, NewRPCMap k = .returned (some t) ∧
      ∀ module sub rpc f, (module, sub) ∈ t → (rpc, f) ∈ sub →
        ∃ ns rpcs d, (ns, rpcs) ∈ ms.Rpcs ∧
          (GoMap.get ms.GetDefaultServiceModuleMap ns).isSome = true ∧
          (rpc, d) ∈ rpcs ∧
          module = getModuleNameFromNamespace ms ns ∧
          f = genRpcFunc module rpc d := by
  refine ⟨_, NewRPCMap.of_model k ms hms, ?_⟩
  intro module sub rpc f hsub hf
  rw [NewRPCMap.table_eq] at hsub
  rcases GoMap.mem_foldl_set _ _ _ _ _ _ hsub with h | ⟨b, hb, hc, hxb⟩
  · simp at h
  · obtain ⟨hmod, hsubeq⟩ := Prod.mk.inj hxb
    subst hmod
    subst hsubeq
    obtain ⟨d, hd, hfd⟩ := NewRPCMap.mem_modRpcs _ _ _ hf
    exact ⟨b.1, b.2, d, hb, hc.1, hd, rfl, hfd⟩

/-- C1 on a model with an owned namespace, an owned namespace without RPCs and
a namespace of another component: the table has the two RPCs of `mod-a` only. -/
theorem NewRPCMap_entries_default_owned_witness :
    ∃ t, NewRPCMap (compiled demoModel) = .returned (some t) ∧
      ∀ module sub rpc f, (module, sub) ∈ t → (rpc, f) ∈ sub →
        ∃ ns rpcs d, (ns, rpcs) ∈ demoModel.Rpcs ∧
          (GoMap.get demoModel.GetDefaultServiceModuleMap ns).isSome = true ∧
          (rpc, d) ∈ rpcs ∧
          module = getModuleNameFromNamespace demoModel ns ∧
          f = genRpcFunc module rpc d :=
  NewRPCMap_entries_default_owned (compiled demoModel) demoModel rfl

/-- C7: no key of the table returned by `NewRPCMap` maps to an empty sub-map,
and a namespace that declares zero RPCs contributes nothing: the table is the
one built without that namespace. -/
theorem NewRPCMap_no_empty_submap {Cfg Node : Type} (k : Compiler Cfg Node)
    (ms : ModelSet Node) (hms : getModelSet k = (some ms, none)) :
    ∃ t, NewRPCMap k = .returned (some t) ∧
      (∀ module sub, (module, sub) ∈ t → sub ≠ []) ∧
      (∀ module, GoMap.get t module ≠ some []) ∧
      (∀ pre ns post, ms.Rpcs = pre ++ (ns, []) :: post →
        t = NewRPCMap.table { ms with Rpcs := pre ++ post }) := by
  have hmem : ∀ module sub, (module, sub) ∈ NewRPCMap.table ms → sub ≠ [] := by
    intro module sub hsub
    rw [NewRPCMap.table_eq] at hsub
    rcases GoMap.mem_foldl_set _ _ _ _ _ _ hsub with h | ⟨b, _, hc, hxb⟩
    · simp at h
    · obtain ⟨_, hsubeq⟩ := Prod.mk.inj hxb
      subst hsubeq
      exact List.ne_nil_of_length_pos hc.2
  refine ⟨_, NewRPCMap.of_model k ms hms, hmem, ?_, ?_⟩
  · intro module hget
    exact hmem module [] (GoMap.mem_of_get _ _ _ hget) rfl
  · intro pre ns post hsplit
    have hstep : ∀ acc : Table Node, NewRPCMap.step ms acc (ns, []) = acc := by
      intro acc
      simp [NewRPCMap.step, NewRPCMap.modRpcs]
    have hsame : NewRPCMap.step { ms with Rpcs := pre ++ post } = NewRPCMap.step ms := rfl
    unfold NewRPCMap.table
    rw [hsame, hsplit]
    simp only [List.foldl_append, List.foldl_cons, hstep]

/-- C7 on a model with an owned namespace that declares no RPC: no entry of
the table is an empty sub-map, and the lookup of that module is not one. -/
theorem NewRPCMap_no_empty_submap_witness :
    ∃ t, NewRPCMap (compiled demoModel) = .returned (some t) ∧
      (∀ module sub, (module, sub) ∈ t → sub ≠ []) ∧
      GoMap.get t "mod-empty" ≠ some [] := by
  obtain ⟨t, h1, h2, h3, _⟩ :=
    NewRPCMap_no_empty_submap (compiled demoModel) demoModel rfl
  exact ⟨t, h1, h2, h3 "mod-empty"⟩

/-- In a model whose maps have unique keys and whose owned namespaces resolve
to distinct module names, the round of the outer loop for an owned `ns` decides
the final entry under the name resolved for `ns`. -/
theorem NewRPCMap.get_table_of_owned {Cfg Node : Type} (k : Compiler Cfg Node)
    (ms : ModelSet Node) (hms : getModelSet k = (some ms, none))
    (hRpcs : (GoMap.keys ms.Rpcs).Nodup)
    (hInner : ∀ p ∈ ms.Rpcs, (GoMap.keys p.2).Nodup)
    (hOne : ∀ ns, (GoMap.get ms.GetDefaultServiceModuleMap ns).isSome = true →
      ∃! name, ∃ mod, (name, mod) ∈ ms.Modules ∧ mod.Namespace = ns)
    (hDistinct : ∀ n1 m1 n2 m2, (n1, m1) ∈ ms.Modules → (n2, m2) ∈ ms.Modules →
      m1.Namespace ≠ m2.Namespace → n1 ≠ n2)
    (ns : String) (rpcs : List (String × Rpc Node)) (r : String) (d : Rpc Node)
    (hns : GoMap.get ms.Rpcs ns = some rpcs)
    (howned : (GoMap.get ms.GetDefaultServiceModuleMap ns).isSome = true)
    (hr : GoMap.get rpcs r = some d) :
    ∃ t sub, NewRPCMap k = .returned (some t) ∧
      GoMap.get t (getModuleNameFromNamespace ms ns) = some sub ∧
      GoMap.get sub r = some (genRpcFunc (getModuleNameFromNamespace ms ns) r d) := by
  have hmemns : (ns, rpcs) ∈ ms.Rpcs := GoMap.mem_of_get _ _ _ hns
  have hmemr : (r, d) ∈ rpcs := GoMap.mem_of_get _ _ _ hr
  have hresolve : ∀ n, (GoMap.get ms.GetDefaultServiceModuleMap n).isSome = true →
      ∃ mod, (getModuleNameFromNamespace ms n, mod) ∈ ms.Modules ∧ mod.Namespace = n := by
    intro n hn
    obtain ⟨name, ⟨mod, hmod, hmodns⟩, _⟩ := hOne n hn
    exact getModuleNameFromNamespace.loop_spec n ms.Modules ⟨(name, mod), hmod, hmodns⟩
  refine ⟨_, NewRPCMap.modRpcs (getModuleNameFromNamespace ms ns) rpcs,
    NewRPCMap.of_model k ms hms, ?_, ?_⟩
  · rw [NewRPCMap.table_eq]
    refine GoMap.get_foldl_set (NewRPCMap.stores ms)
      (fun b => getModuleNameFromNamespace ms b.1)
      (fun b => NewRPCMap.modRpcs (getModuleNameFromNamespace ms b.1) b.2)
      ms.Rpcs [] (ns, rpcs) hmemns ?_ ?_
    · refine ⟨howned, List.length_pos.2 (NewRPCMap.modRpcs_ne_nil _ _ ?_)⟩
      intro hnil
      have hnil' : rpcs = [] := hnil
      rw [hnil'] at hmemr
      simp at hmemr
    · intro b hb hcb hkey
      obtain ⟨mb, hmb, hmbns⟩ := hresolve b.1 hcb.1
      obtain ⟨ma, hma, hmans⟩ := hresolve ns howned
      have hnseq : b.1 = ns := by
        by_contra hne
        exact hDistinct _ mb _ ma hmb hma (by rw [hmbns, hmans]; exact hne) hkey
      have hbmem : (ns, b.2) ∈ ms.Rpcs := by
        rw [← hnseq]
        exact hb
      have hb2 : b.2 = rpcs := GoMap.eq_of_mem_of_nodup _ hRpcs ns _ _ hbmem hmemns
      simp only [hnseq, hb2]
  · rw [NewRPCMap.modRpcs_eq]
    refine GoMap.get_foldl_set (fun _ => True) Prod.fst
      (fun p => genRpcFunc (getModuleNameFromNamespace ms ns) p.1 p.2)
      rpcs [] (r, d) hmemr trivial ?_
    intro b hb _ hkey
    have hkey' : b.1 = r := hkey
    have hbmem : (r, b.2) ∈ rpcs := by
      rw [← hkey']
      exact hb
    have hb2 : b.2 = d :=
      GoMap.eq_of_mem_of_nodup _ (hInner _ hmemns) r _ _ hbmem hmemr
    simp only [hkey', hb2]


/-- C10: in a model whose maps have unique keys, where each default-owned
name space is the namespace of exactly one module and modules with distinct
name spaces have distinct names, every RPC `r` of every namespace `ns` that
is in the full RPC map and default-owned has an entry at `table[name][r]`,
where `name` is the name of the one module whose namespace is `ns`; the entry
is a handler whose three bound values are `name`, `r` and what `ns` declares
for `r`, so that calling it runs `handleLegacyRpc` on exactly these. -/
theorem NewRPCMap_complete {Cfg Node : Type} (k : Compiler Cfg Node)
    (ms : ModelSet Node) (hms : getModelSet k = (some ms, none))
    (hRpcs : (GoMap.keys ms.Rpcs).Nodup)
    (hInner : ∀ p ∈ ms.Rpcs, (GoMap.keys p.2).Nodup)
    (hOne : ∀ ns, (GoMap.get ms.GetDefaultServiceModuleMap ns).isSome = true →
      ∃! name, ∃ mod, (name, mod) ∈ ms.Modules ∧ mod.Namespace = ns)
    (hDistinct : ∀ n1 m1 n2 m2, (n1, m1) ∈ ms.Modules → (n2, m2) ∈ ms.Modules →
      m1.Namespace ≠ m2.Namespace → n1 ≠ n2)
    (ns : String) (rpcs : List (String × Rpc Node)) (r : String) (d : Rpc Node)
    (hns : GoMap.get ms.Rpcs ns = some rpcs)
    (howned : (GoMap.get ms.GetDefaultServiceModuleMap ns).isSome = true)
    (hr : GoMap.get rpcs r = some d) :
    ∃ t name mod sub f, NewRPCMap k = .returned (some t) ∧
      (name, mod) ∈ ms.Modules ∧ mod.Namespace = ns ∧
      (∀ name' mod', (name', mod') ∈ ms.Modules → mod'.Namespace = ns → name' = name) ∧
      getModuleNameFromNamespace ms ns = name ∧
      GoMap.get t name = some sub ∧
      GoMap.get sub r = some f ∧
      f.modName = name ∧ f.rpcName = r ∧ f.rpc = d ∧
      ∀ (DataNode : Type) (h : Host Node DataNode) (jsonIn : String),
        f.call h jsonIn = handleLegacyRpc h d name r jsonIn := by
  obtain ⟨t, sub, ht, hsub, hf⟩ := NewRPCMap.get_table_of_owned k ms hms hRpcs hInner
    hOne hDistinct ns rpcs r d hns howned hr
  obtain ⟨name0, ⟨mod0, hmod0, hmodns0⟩, huniq⟩ := hOne ns howned
  obtain ⟨mod, hmod, hmodns⟩ :=
    getModuleNameFromNamespace.loop_spec ns ms.Modules ⟨(name0, mod0), hmod0, hmodns0⟩
  have hres : getModuleNameFromNamespace ms ns = name0 := huniq _ ⟨mod, hmod, hmodns⟩
  refine ⟨t, getModuleNameFromNamespace ms ns, mod, sub,
    genRpcFunc (getModuleNameFromNamespace ms ns) r d, ht, hmod, hmodns, ?_, rfl,
    hsub, hf, rfl, rfl, rfl, fun _ _ _ => rfl⟩
  intro name' mod' hmem' hns'
  rw [hres]
  exact huniq name' ⟨mod', hmem', hns'⟩

/-- C10 on a model with three modules of three namespaces: the RPC `ping` of
the owned namespace `urn:a` is at `table["mod-a"]["ping"]`, a handler bound to
`mod-a`, `ping` and what `urn:a` declares for `ping`. -/
theorem NewRPCMap_complete_witness :
    ∃ t sub f, NewRPCMap (compiled demoModel) = .returned (some t) ∧
      GoMap.get t "mod-a" = some sub ∧
      GoMap.get sub "ping" = some f ∧
      f.modName = "mod-a" ∧ f.rpcName = "ping" ∧ f.rpc = ⟨(), "ping"⟩ := by
  have hmain := NewRPCMap_complete (compiled demoModel) demoModel rfl (by decide) (by decide)
    ?hOne ?hDistinct "urn:a"
    [("reboot", ⟨(), "/opt/vyatta/bin/reboot now"⟩), ("ping", ⟨(), "ping"⟩)]
    "ping" ⟨(), "ping"⟩ (by decide) (by decide) (by decide)
  case hOne =>
    intro ns hown
    have hcases : ns = "urn:a" ∨ ns = "urn:empty" := by
      by_cases h1 : "urn:a" = ns
      · exact Or.inl h1.symm
      · by_cases h2 : "urn:empty" = ns
        · exact Or.inr h2.symm
        · simp [demoModel, GoMap.get, h1, h2] at hown
    rcases hcases with rfl | rfl
    · refine ⟨"mod-a", ⟨⟨"urn:a"⟩, by decide, rfl⟩, ?_⟩
      rintro name ⟨mod, hmem, hmodns⟩
      simp only [demoModel, List.mem_cons, Prod.mk.injEq, List.mem_singleton,
        List.not_mem_nil, or_false] at hmem
      rcases hmem with ⟨_, rfl⟩ | ⟨rfl, _⟩ | ⟨_, rfl⟩
      · exact absurd hmodns (by decide)
      · rfl
      · exact absurd hmodns (by decide)
    · refine ⟨"mod-empty", ⟨⟨"urn:empty"⟩, by decide, rfl⟩, ?_⟩
      rintro name ⟨mod, hmem, hmodns⟩
      simp only [demoModel, List.mem_cons, Prod.mk.injEq, List.mem_singleton,
        List.not_mem_nil, or_false] at hmem
      rcases hmem with ⟨_, rfl⟩ | ⟨_, rfl⟩ | ⟨rfl, _⟩
      · exact absurd hmodns (by decide)
      · exact absurd hmodns (by decide)
      · rfl
  case hDistinct =>
    intro n1 m1 n2 m2 h1 h2 hne heq
    subst heq
    exact hne (congrArg Module.Namespace
      (GoMap.eq_of_mem_of_nodup demoModel.Modules (by decide) n1 m1 m2 h1 h2))
  obtain ⟨t, name, _, sub, f, ht, _, _, _, hname, hsub, hf, hm, hrn, hd, _⟩ := hmain
  have hn : name = "mod-a" := by
    rw [← hname]
    decide
  subst hn
  exact ⟨t, sub, f, ht, hsub, hf, hm, hrn, hd⟩

end Provisiond
